import Mathlib

/-!
Verification of the flashloan-arb pricing / detection / execution pipeline.

This file is a shallow embedding, in Lean 4, of the parts of the
`flashloan-arb` repository that the verified properties talk about:

* `ArbitrageDetector` (`bot/src/services/arbitrage-detector.ts`):
  the pricing graph, the constant-product quote `calculateRate`, the
  Bellman–Ford negative-cycle search, the bounded-depth direct-cycle
  enumeration `findDirectCycles`, and `buildOpportunity`.
* `PriceMonitor` (`bot/src/services/price-monitor.ts`): `updateReserves`
  and the `Sync`-event handler installed by `startMonitoring`.
* `TradeExecutor` (`bot/src/services/executor.ts`): `buildArbitrageParams`
  and `execute` (dry-run path and standard path).
* the opportunity-enqueue handler installed in `bot/src/index.ts`.
* the `FlashloanArbitrage` Solidity contract (daily-loss circuit breaker),
  modelled as a state-transition system.

Modelling conventions, stated once:

* EVM addresses are fixed-width hex strings; after `toLowerCase()` their
  lexicographic order coincides with their numeric order, so addresses are
  modelled as `Nat` and the source's `a.toLowerCase() < b.toLowerCase()`
  comparisons become `<` on `Nat`.
* JavaScript `bigint` arithmetic is exact; it is modelled as `Nat` where all
  involved quantities are non-negative and as `Int` (with `Int.tdiv`, which
  is the truncating division `bigint` uses) where differences occur.
* JavaScript `number` (IEEE double) values are modelled as exact rationals
  (`ℚ`) for the heuristic bookkeeping fields (confidence, USD estimates) and
  as real numbers (`ℝ`, with `-Real.log` for `-Math.log` and `⊤ : EReal` for
  `Infinity`) for the edge weights.  No verified claim depends on rounding
  of doubles; weights enter the verified statements only through sign
  conditions that hold with margin.
* `Map` and `Set` objects are modelled as association lists / lists with
  JavaScript's insertion-order semantics (`setA`, `pushUnique`).
* `Date.now()` and `Math.random()` are threaded through as explicit `now` /
  `rand` parameters (the clock is sampled once per detector run).
* graphs are parameterised by the weight type `W` (the detector only adds
  and compares weights); concrete runs in the repository use the real-valued
  weights of the price monitor, while closed evaluations below instantiate
  `W` with computable types.
-/

namespace FlashArb

/-- EVM address, modelled as a natural number (see header). -/
abbrev Address := Nat

/-- The `DexType` enum from `bot/src/types/index.ts`. -/
inductive DexType where
  | UniswapV2
  | UniswapV3
  | Curve
  | Velodrome
deriving DecidableEq

/-- Model of the ABI-encoded `data` field of a swap step: `'0x'` for v2-style
pools, an encoded `uint24` fee tier for Uniswap v3, an encoded `bool` stable
flag for Velodrome (`encodeAbiParameters` in `buildOpportunity`). -/
inductive HexData where
  | empty
  | uint24 (fee : Nat)
  | boolFlag (stable : Bool)
deriving DecidableEq

/-- The `Edge` interface from `bot/src/types/index.ts`, parameterised by the
weight type `W` (the source stores a JavaScript `number`). -/
structure Edge (W : Type) where
  «from» : Address
  «to» : Address
  pool : Address
  dex : String
  dexType : DexType
  router : Address
  weight : W
  reserve0 : Nat
  reserve1 : Nat
  fee : Nat
deriving DecidableEq

/-- The `Graph` interface: a `Set` of vertices and a `Map` from source token to
its outgoing edge list, both in insertion order. -/
structure Graph (W : Type) where
  vertices : List Address
  edges : List (Address × List (Edge W))
deriving DecidableEq

/-- Model of `Map.prototype.get`: first binding of the key, if any. -/
def lookupA {κ β : Type} [DecidableEq κ] (m : List (κ × β)) (k : κ) : Option β :=
  (m.find? (fun p => decide (p.1 = k))).map Prod.snd

/-- Model of `Map.prototype.set`: update the existing binding in place, else append. -/
def setA {κ β : Type} [DecidableEq κ] (m : List (κ × β)) (k : κ) (v : β) :
    List (κ × β) :=
  match m with
  | [] => [(k, v)]
  | (k', v') :: rest => if k' = k then (k, v) :: rest else (k', v') :: setA rest k v

/-- Model of `Set.prototype.add` under insertion-order iteration. -/
def pushUnique (l : List Address) (a : Address) : List Address :=
  if a ∈ l then l else l ++ [a]

/-- The `findIndex`/`splice` pair in `ArbitrageDetector.addEdge`: drop the
first edge with the given destination and pool (no-op when absent). -/
def removeFirstEdge {W : Type} (t p : Address) : List (Edge W) → List (Edge W)
  | [] => []
  | e :: es => if e.«to» = t ∧ e.pool = p then es else e :: removeFirstEdge t p es

/-- Model of `ArbitrageDetector.addEdge`: register both endpoints as vertices, replace
any existing edge for the same (destination, pool) pair, push the new edge. -/
def addEdge {W : Type} (g : Graph W) (e : Edge W) : Graph W :=
  let vs := pushUnique (pushUnique g.vertices e.«from») e.«to»
  let cur := (lookupA g.edges e.«from»).getD []
  { vertices := vs, edges := setA g.edges e.«from» (removeFirstEdge e.«to» e.pool cur ++ [e]) }

/-- The `amountOut` component of `ArbitrageDetector.calculateRate`
(`executor.ts` embedding of the detector, lines 448–462): exact
constant-product output with the fee taken on the input, in integer
arithmetic.  The source returns `{ amountOut, rate }`; the float `rate`
component is modelled separately as `calculateRateRate` below. -/
def calculateRateOut (reserveIn reserveOut amountIn feeBps : Nat) : Nat :=
  let feeMultiplier := 10000 - feeBps
  let amountInWithFee := amountIn * feeMultiplier
  let numerator := amountInWithFee * reserveOut
  let denominator := reserveIn * 10000 + amountInWithFee
  numerator / denominator

/-- The spec's one-line v2 quote formula, written independently from the
specification text (§4.4): `amountOut = (δ·(10000−fee_bps)·reserveOut) /
(reserveIn·10000 + δ·(10000−fee_bps))`, to be compared with the source's
`calculateRateOut`. -/
def specV2AmountOut (delta feeBps reserveIn reserveOut : Nat) : Nat :=
  delta * (10000 - feeBps) * reserveOut / (reserveIn * 10000 + delta * (10000 - feeBps))

/-- The `rate` component of `calculateRate`: `Number(amountOut) /
Number(amountIn)`, doubles modelled as reals. -/
noncomputable def calculateRateRate (reserveIn reserveOut amountIn feeBps : Nat) : ℝ :=
  (calculateRateOut reserveIn reserveOut amountIn feeBps : ℝ) / (amountIn : ℝ)

/-- Model of `ArbitrageDetector.calculateWeight`: `-Math.log(rate)`, with `Infinity`
(modelled as `⊤ : EReal`) for non-positive rates. -/
noncomputable def calculateWeight (rate : ℝ) : EReal :=
  if rate ≤ 0 then ⊤ else (((-Real.log rate : ℝ)) : EReal)

/-- The `SwapStep` interface from `bot/src/types/index.ts`. -/
structure SwapStep where
  router : Address
  tokenIn : Address
  tokenOut : Address
  amountIn : Nat
  expectedAmountOut : Nat
  pool : Address
  dexType : DexType
  data : HexData
deriving DecidableEq

/-- The `ArbitrageOpportunity` interface from `bot/src/types/index.ts`.  USD
fields and confidence are JavaScript numbers, modelled as rationals. -/
structure Opportunity where
  id : String
  chain : Nat
  path : List SwapStep
  inputToken : Address
  inputAmount : Nat
  expectedOutput : Nat
  expectedProfit : Int
  profitUsd : ℚ
  gasEstimate : Nat
  gasCostUsd : ℚ
  netProfitUsd : ℚ
  confidence : ℚ
  timestamp : Nat
  expiresAt : Nat
deriving DecidableEq

/-- Structural power on `ℚ` (model of `Math.pow` for a rational base and an
integer exponent; `calculateConfidence` only uses exponent `length − 2`). -/
def ratPowNat (q : ℚ) : Nat → ℚ
  | 0 => 1
  | n + 1 => ratPowNat q n * q

/-- Model of `Math.pow` with a possibly negative integer exponent. -/
def ratPowInt (q : ℚ) : Int → ℚ
  | Int.ofNat n => ratPowNat q n
  | Int.negSucc n => (ratPowNat q (n + 1))⁻¹

/-- Model of `ArbitrageDetector.calculateConfidence`: profit-margin base capped at 1,
damped by `0.95^(length−2)` and by `0.8` per thin pool; the double constants
are modelled as the exact rationals they denote. -/
def calculateConfidence {W : Type} (cycle : List (Edge W)) (profit : Int)
    (input : Nat) : ℚ :=
  let profitBps : Int := Int.tdiv (profit * 10000) (input : Int)
  let base : ℚ := min ((profitBps : ℚ) / 100) 1
  let lenAdj : ℚ := base * ratPowInt (19 / 20) ((cycle.length : Int) - 2)
  let liqAdj : ℚ := cycle.foldl
    (fun c e => if min e.reserve0 e.reserve1 < 10 ^ 18 then c * (4 / 5) else c) lenAdj
  max 0 (min 1 liqAdj)

/-- Swap-step `data` encoding chosen in `buildOpportunity`: a `uint24` fee
tier for Uniswap v3, a `bool` stable flag (`fee < 10`) for Velodrome, empty
otherwise. -/
def encodeSwapData (dexType : DexType) (fee : Nat) : HexData :=
  match dexType with
  | DexType.UniswapV3 => HexData.uint24 fee
  | DexType.Velodrome => HexData.boolFlag (decide (fee < 10))
  | _ => HexData.empty

/-- The quoting loop of `buildOpportunity`: walk the cycle, at each edge
orient the stored reference reserves by the lowercased-address comparison
`edge.from < edge.to`, quote with `calculateRate`, and record the swap step;
returns the steps and the final amount. -/
def runCycle {W : Type} : List (Edge W) → Nat → List SwapStep × Nat
  | [], amt => ([], amt)
  | e :: rest, amt =>
      let isToken0ToToken1 := e.«from» < e.«to»
      let reserveIn := if isToken0ToToken1 then e.reserve0 else e.reserve1
      let reserveOut := if isToken0ToToken1 then e.reserve1 else e.reserve0
      let amountOut := calculateRateOut reserveIn reserveOut amt e.fee
      let step : SwapStep :=
        { router := e.router, tokenIn := e.«from», tokenOut := e.«to»,
          amountIn := amt, expectedAmountOut := amountOut, pool := e.pool,
          dexType := e.dexType, data := encodeSwapData e.dexType e.fee }
      let tail := runCycle rest amountOut
      (step :: tail.1, tail.2)

/-- One step of the claim-side sequential quote: `calculateRate` applied to
an edge's stored reference reserves (same orientation rule as the source). -/
def quoteStep {W : Type} (amt : Nat) (e : Edge W) : Nat :=
  calculateRateOut (if e.«from» < e.«to» then e.reserve0 else e.reserve1)
    (if e.«from» < e.«to» then e.reserve1 else e.reserve0) amt e.fee

/-- Sequential application of the exact constant-product output formula along
a cycle, starting from a given input amount (the claim's wording). -/
def quoteCycle {W : Type} (cycle : List (Edge W)) (amt : Nat) : Nat :=
  cycle.foldl quoteStep amt

/-- Model of `ArbitrageDetector.buildOpportunity`: `null` on an empty cycle, otherwise
the opportunity record with the sequentially quoted output, profit = output −
input, rough gas estimate, confidence and a 2-second validity window. -/
def buildOpportunity {W : Type} (chainId now : Nat) (rand : String)
    (cycle : List (Edge W)) (inputAmount : Nat) : Option Opportunity :=
  match cycle with
  | [] => none
  | firstStep :: _ =>
      let res := runCycle cycle inputAmount
      let currentAmount := res.2
      let expectedProfit : Int := (currentAmount : Int) - (inputAmount : Int)
      let gasEstimate := 150000 + cycle.length * 80000
      some
        { id := Nat.repr chainId ++ "-" ++ Nat.repr now ++ "-" ++ rand,
          chain := chainId,
          path := res.1,
          inputToken := firstStep.«from»,
          inputAmount := inputAmount,
          expectedOutput := currentAmount,
          expectedProfit := expectedProfit,
          profitUsd := 0,
          gasEstimate := gasEstimate,
          gasCostUsd := 0,
          netProfitUsd := 0,
          confidence := calculateConfidence cycle expectedProfit inputAmount,
          timestamp := now,
          expiresAt := now + 2000 }

/-- The recursive body of `ArbitrageDetector.findDirectCycles`.  The source
recursion is bounded because it only recurses while `path.length < maxHops`;
the explicit fuel argument (`maxHops + 1` at the root) therefore never runs
out on the source's own call pattern. -/
def directCycleDFS {W : Type} (g : Graph W) (source : Address) (maxHops : Nat) :
    Nat → Address → List (Edge W) → List (Address × Address × Address) →
    List (List (Edge W))
  | 0, _, _, _ => []
  | fuel + 1, current, path, visited =>
      if path.length > maxHops then [] else
      ((lookupA g.edges current).getD []).flatMap (fun e =>
        if e.«to» = source ∧ path.length ≥ 2 then
          [path ++ [e]]
        else if (e.«from», e.«to», e.pool) ∉ visited ∧ path.length < maxHops then
          directCycleDFS g source maxHops fuel e.«to» (path ++ [e])
            ((e.«from», e.«to», e.pool) :: visited)
        else [])

/-- Model of `ArbitrageDetector.findDirectCycles`: depth-first enumeration from the
source token, keying visited edges by the `(from, to, pool)` triple. -/
def findDirectCycles {W : Type} (g : Graph W) (source : Address) (maxHops : Nat) :
    List (List (Edge W)) :=
  directCycleDFS g source maxHops (maxHops + 1) source [] []

/-- The predecessor-walk loop of `ArbitrageDetector.extractCycle`.  The
source's `while` loop adds one fresh vertex to `visited` per iteration and
only continues through vertices that own a predecessor edge, so it performs
at most `predecessor.size + 2` iterations; the fuel is set accordingly. -/
def extractCycleGo {W : Type} (predecessor : List (Address × Option (Edge W))) :
    Nat → Address → List Address → List (Edge W) → List (Edge W) × Address
  | 0, current, _, cycle => (cycle, current)
  | fuel + 1, current, visitedV, cycle =>
      if current ∈ visitedV then (cycle, current)
      else
        match (lookupA predecessor current).getD none with
        | none => (cycle, current)
        | some e =>
            extractCycleGo predecessor fuel e.«from» (visitedV ++ [current]) (e :: cycle)

/-- Model of `ArbitrageDetector.extractCycle`: walk predecessors back from `start`
until a repeat, then truncate the collected edges at the repeat point. -/
def extractCycle {W : Type} (predecessor : List (Address × Option (Edge W)))
    (start : Address) : List (Edge W) :=
  let res := extractCycleGo predecessor (predecessor.length + 2) start [] []
  match res.1.findIdx? (fun e => decide (e.«from» = res.2)) with
  | some i => res.1.drop i
  | none => res.1

/-- Distance/predecessor maps of the Bellman–Ford phase.  A distance value of
`none` models the `Infinity` initialisation. -/
structure BFState (W : Type) where
  dist : List (Address × Option W)
  pred : List (Address × Option (Edge W))

/-- One full relaxation pass over the edge map (the body of the `i` loop in
`findArbitrageOpportunities`), returning the updated state and the `updated`
flag.  `distFrom` is read once per source vertex, as in the source. -/
def relaxPass {W : Type} [LinearOrder W] [Add W]
    (edges : List (Address × List (Edge W))) (st : BFState W) : BFState W × Bool :=
  edges.foldl (fun acc p =>
    match lookupA acc.1.dist p.1 with
    | none => acc
    | some none => acc
    | some (some distFrom) =>
        p.2.foldl (fun acc2 e =>
          let newDist := distFrom + e.weight
          match lookupA acc2.1.dist e.«to» with
          | none => acc2
          | some none =>
              (⟨setA acc2.1.dist e.«to» (some newDist),
                setA acc2.1.pred e.«to» (some e)⟩, true)
          | some (some distTo) =>
              if newDist < distTo then
                (⟨setA acc2.1.dist e.«to» (some newDist),
                  setA acc2.1.pred e.«to» (some e)⟩, true)
              else acc2) acc) (st, false)

/-- The `V−1`-times relaxation loop with the source's early `break` when a
pass makes no update. -/
def relaxLoop {W : Type} [LinearOrder W] [Add W]
    (edges : List (Address × List (Edge W))) : Nat → BFState W → BFState W
  | 0, st => st
  | k + 1, st =>
      let res := relaxPass edges st
      if res.2 then relaxLoop edges k res.1 else res.1

/-- The extra relaxation pass that collects destinations still improvable:
the `negativeCycleVertices` set, in insertion order. -/
def collectNegVertices {W : Type} [LinearOrder W] [Add W]
    (edges : List (Address × List (Edge W))) (dist : List (Address × Option W)) :
    List Address :=
  edges.foldl (fun acc p =>
    match lookupA dist p.1 with
    | none => acc
    | some none => acc
    | some (some distFrom) =>
        p.2.foldl (fun acc2 e =>
          match lookupA dist e.«to» with
          | none => acc2
          | some none => pushUnique acc2 e.«to»
          | some (some distTo) =>
              if distFrom + e.weight < distTo then pushUnique acc2 e.«to» else acc2)
          acc) []

/-- Loop body over `negativeCycleVertices`: extract the cycle, keep it only
when non-empty and rooted at the source token, build the opportunity, keep it
only on strictly positive expected profit. -/
def negCycleStep {W : Type} (pred : List (Address × Option (Edge W)))
    (chainId now : Nat) (rand : String) (sourceToken : Address) (inputAmount : Nat)
    (acc : List Opportunity) (startVertex : Address) : List Opportunity :=
  match extractCycle pred startVertex with
  | [] => acc
  | e :: rest =>
      if e.«from» = sourceToken then
        match buildOpportunity chainId now rand (e :: rest) inputAmount with
        | some o => if 0 < o.expectedProfit then acc ++ [o] else acc
        | none => acc
      else acc

/-- The duplicate test used for direct cycles: same path length and same pool
at every index. -/
def samePoolSeq (p : Opportunity) (o : Opportunity) : Bool :=
  decide (p.path.length = o.path.length) &&
    (p.path.zip o.path).all (fun q => decide (q.1.pool = q.2.pool))

/-- Loop body over the direct cycles: build the opportunity, keep it on
strictly positive profit unless an equal pool sequence is already present. -/
def directCycleStep {W : Type} (chainId now : Nat) (rand : String)
    (inputAmount : Nat) (acc : List Opportunity) (cycle : List (Edge W)) :
    List Opportunity :=
  match buildOpportunity chainId now rand cycle inputAmount with
  | some o =>
      if 0 < o.expectedProfit then
        if acc.any (fun p => samePoolSeq p o) then acc else acc ++ [o]
      else acc
  | none => acc

/-- Stable insertion of an opportunity into a profit-descending list: placed
before the first strictly smaller profit, after ties. -/
def insertByProfit (o : Opportunity) : List Opportunity → List Opportunity
  | [] => [o]
  | p :: ps => if p.expectedProfit < o.expectedProfit then o :: p :: ps
               else p :: insertByProfit o ps

/-- Model of `opportunities.sort((a, b) => Number(b.expectedProfit −
a.expectedProfit))`: a stable sort by descending expected profit (JavaScript
`Array.prototype.sort` is required to be stable). -/
def sortByProfitDesc (l : List Opportunity) : List Opportunity :=
  l.foldl (fun acc o => insertByProfit o acc) []

/-- Model of `ArbitrageDetector.findArbitrageOpportunities`: Bellman–Ford from the
source token, negative-cycle extraction, direct-cycle enumeration with
de-duplication, and the final profit-descending sort. -/
def findArbitrageOpportunities {W : Type} [LinearOrder W] [Add W] [Zero W]
    (g : Graph W) (chainId now : Nat) (rand : String)
    (sourceToken : Address) (inputAmount : Nat) : List Opportunity :=
  let vertices := g.vertices
  let n := vertices.length
  if n = 0 then [] else
  let dist0 := setA (vertices.map (fun v => (v, (none : Option W)))) sourceToken
    (some 0)
  let pred0 := vertices.map (fun v => (v, (none : Option (Edge W))))
  let st := relaxLoop g.edges (n - 1) ⟨dist0, pred0⟩
  let negVerts := collectNegVertices g.edges st.dist
  let opps1 := negVerts.foldl
    (negCycleStep st.pred chainId now rand sourceToken inputAmount) []
  let opps2 := (findDirectCycles g sourceToken 3).foldl
    (directCycleStep chainId now rand inputAmount) opps1
  sortByProfitDesc opps2

/-! ### Price monitor (`bot/src/services/price-monitor.ts`) -/

/-- The `PoolSubscription` interface (fields used by `updateReserves`). -/
structure PoolSubscription where
  pool : Address
  dex : String
  dexType : DexType
  router : Address
  token0 : Address
  token1 : Address
  fee : Nat
deriving DecidableEq

/-- The `PoolReserves` interface from `bot/src/types/index.ts`. -/
structure PoolReserves where
  pool : Address
  dex : String
  token0 : Address
  token1 : Address
  reserve0 : Nat
  reserve1 : Nat
  fee : Nat
  timestamp : Nat
deriving DecidableEq

/-- A delivered `Sync` log: the reserve payload plus the block number and log
index that determine the event's sequence number.  The handler installed by
`startMonitoring` destructures only `reserve0` and `reserve1`. -/
structure SyncEvent where
  reserve0 : Nat
  reserve1 : Nat
  blockNumber : Nat
  logIndex : Nat
deriving DecidableEq

/-- The `PriceMonitor` state: the `reserves` map keyed by `(chainId, pool)` (the
source key is the string `chainId + "-" + pool`) and the per-chain detector
graphs. -/
structure MonitorState where
  reserves : List ((Nat × Address) × PoolReserves)
  detectors : List (Nat × Graph EReal)

/-- The reference input used by `updateReserves` for both directions:
`10n ** 18n`. -/
def referenceInput : Nat := 10 ^ 18

/-- The forward (`token0 → token1`) edge built by
`PriceMonitor.updateReserves` from a reserve snapshot. -/
noncomputable def fwdEdge (sub : PoolSubscription) (reserve0 reserve1 : Nat) :
    Edge EReal :=
  { «from» := sub.token0, «to» := sub.token1, pool := sub.pool, dex := sub.dex,
    dexType := sub.dexType, router := sub.router,
    weight := calculateWeight (calculateRateRate reserve0 reserve1 referenceInput sub.fee),
    reserve0 := reserve0, reserve1 := reserve1, fee := sub.fee }

/-- The reverse (`token1 → token0`) edge built by
`PriceMonitor.updateReserves`; note the swapped reference reserves. -/
noncomputable def revEdge (sub : PoolSubscription) (reserve0 reserve1 : Nat) :
    Edge EReal :=
  { «from» := sub.token1, «to» := sub.token0, pool := sub.pool, dex := sub.dex,
    dexType := sub.dexType, router := sub.router,
    weight := calculateWeight (calculateRateRate reserve1 reserve0 referenceInput sub.fee),
    reserve0 := reserve1, reserve1 := reserve0, fee := sub.fee }

/-- Model of `PriceMonitor.updateReserves`: store the snapshot (unconditionally — the
source keeps no sequence number and performs no staleness check), then, when
the chain has a detector, replace both derived edges. -/
noncomputable def updateReserves (st : MonitorState) (chainId : Nat)
    (sub : PoolSubscription) (reserve0 reserve1 now : Nat) : MonitorState :=
  let reserves' := setA st.reserves (chainId, sub.pool)
    { pool := sub.pool, dex := sub.dex, token0 := sub.token0, token1 := sub.token1,
      reserve0 := reserve0, reserve1 := reserve1, fee := sub.fee, timestamp := now }
  match lookupA st.detectors chainId with
  | none => { st with reserves := reserves' }
  | some g =>
      let g2 := addEdge (addEdge g (fwdEdge sub reserve0 reserve1))
        (revEdge sub reserve0 reserve1)
      { reserves := reserves', detectors := setA st.detectors chainId g2 }

/-- The `Sync` handler installed by `PriceMonitor.startMonitoring`: for every
delivered log it calls `updateReserves` with the payload reserves (ignoring
`blockNumber` and `logIndex`) and then `checkArbitrage`; the returned flag
records that a detector run was triggered. -/
noncomputable def handleSyncLog (st : MonitorState) (chainId : Nat)
    (sub : PoolSubscription) (ev : SyncEvent) (now : Nat) : MonitorState × Bool :=
  (updateReserves st chainId sub ev.reserve0 ev.reserve1 now, true)

/-- Model of `PriceMonitor.getReserves`. -/
def getReserves (st : MonitorState) (chainId : Nat) (pool : Address) :
    Option PoolReserves :=
  lookupA st.reserves (chainId, pool)

/-- Outgoing edge list of a token (`graph.edges.get(a) || []`). -/
def edgesFor {W : Type} (g : Graph W) (a : Address) : List (Edge W) :=
  (lookupA g.edges a).getD []

/-! ### Trade executor (`bot/src/services/executor.ts`) -/

/-- The `BotConfig` interface (`bot/src/types/index.ts`); `privateKey` is kept as
an opaque string. -/
structure BotConfig where
  minProfitUsd : ℚ
  maxGasPriceGwei : Nat
  maxSlippageBps : Nat
  simulateBeforeExecute : Bool
  dryRun : Bool
  maxConcurrentTrades : Nat
  cooldownMs : Nat
  enabledChains : List Nat
  privateKey : String
  flashbotsEnabled : Bool
deriving DecidableEq

/-- A swap step as encoded for the contract call (the tuple in the
`executeArbitrage` ABI). -/
structure ContractSwapStep where
  router : Address
  tokenIn : Address
  tokenOut : Address
  amountIn : Nat
  data : HexData
  dexType : DexType
deriving DecidableEq

/-- The `ArbitrageParams` struct passed to `executeArbitrage`.  `minProfit`
is kept as an `Int` because the source computes it with `bigint` arithmetic
before any unsigned encoding. -/
structure ArbitrageParams where
  flashToken : Address
  flashAmount : Nat
  swaps : List ContractSwapStep
  minProfit : Int
deriving DecidableEq

/-- Model of `TradeExecutor.buildArbitrageParams`: maps the path onto contract swap
steps and sets `minProfit := expectedProfit * (100n − maxSlippageBps) / 100n`
(`bigint` division truncates, hence `Int.tdiv`). -/
def buildArbitrageParams (cfg : BotConfig) (opp : Opportunity) : ArbitrageParams :=
  { flashToken := opp.inputToken,
    flashAmount := opp.inputAmount,
    swaps := opp.path.map (fun s =>
      { router := s.router, tokenIn := s.tokenIn, tokenOut := s.tokenOut,
        amountIn := s.amountIn, data := s.data, dexType := s.dexType }),
    minProfit := Int.tdiv (opp.expectedProfit * (100 - (cfg.maxSlippageBps : Int))) 100 }

/-- The spec's slippage formula (§4.7), written from the specification text:
`minProfit = expected_profit · (1 − slippage_bps/10000)` in exact integer
arithmetic rounded down (truncation; the quantities involved are
non-negative). -/
def specSlippageMinProfit (expectedProfit : Int) (slippageBps : Nat) : Int :=
  Int.tdiv (expectedProfit * (10000 - (slippageBps : Int))) 10000

/-- The `ExecutionResult` interface from `bot/src/types/index.ts`. -/
structure ExecutionResult where
  success : Bool
  txHash : Option String
  profit : Option Int
  gasUsed : Option Nat
  error : Option String
  blockNumber : Option Nat
  timestamp : Nat
deriving DecidableEq

/-- The sentinel transaction hash used in dry-run mode:
`'0x' + '0'.repeat(64)`. -/
def sentinelHash : String := "0x" ++ String.mk (List.replicate 64 '0')

/-- The chain-side observables `execute` interacts with: the account nonce,
the gas price, the outcome the RPC node would report for simulation and for
the receipt, and the list of submitted transactions.  Signing/keccak hashing
is abstracted into `txHashOf`. -/
structure ChainWorld where
  nonce : Nat
  gasPriceWei : Nat
  simSuccess : Bool
  receiptSuccess : Bool
  receiptGasUsed : Nat
  receiptBlock : Nat
  submitted : List ArbitrageParams
deriving DecidableEq

/-- Opaque model of the hash of a signed transaction. -/
def txHashOf (nonce : Nat) : String := "0xtx-" ++ Nat.repr nonce

/-- Model of `TradeExecutor.execute`.  The dry-run branch returns the synthesized
success result before any RPC interaction; the live branch models the
simulation gate, the gas-price gate, and the submit/confirm sequence (a
submission consumes the nonce and appends to the submitted list). -/
def execute (cfg : BotConfig) (opp : Opportunity) (w : ChainWorld) (now : Nat) :
    ExecutionResult × ChainWorld :=
  if cfg.dryRun then
    ({ success := true, txHash := some sentinelHash,
       profit := some opp.expectedProfit, gasUsed := some opp.gasEstimate,
       error := none, blockNumber := none, timestamp := now }, w)
  else if cfg.simulateBeforeExecute && !w.simSuccess then
    ({ success := false, txHash := none, profit := none, gasUsed := none,
       error := some "Simulation failed", blockNumber := none, timestamp := now }, w)
  else if cfg.maxGasPriceGwei * 10 ^ 9 < w.gasPriceWei then
    ({ success := false, txHash := none, profit := none, gasUsed := none,
       error := some "Gas price too high", blockNumber := none, timestamp := now }, w)
  else
    let params := buildArbitrageParams cfg opp
    let w' := { w with nonce := w.nonce + 1, submitted := w.submitted ++ [params] }
    ({ success := w.receiptSuccess, txHash := some (txHashOf w.nonce),
       profit := some (if w.receiptSuccess then opp.expectedProfit else 0),
       gasUsed := some w.receiptGasUsed, error := none,
       blockNumber := some w.receiptBlock, timestamp := now }, w')

/-! ### Opportunity enqueue handler (`bot/src/index.ts`, `monitor.onOpportunity`) -/

/-- USD profit assigned by the handler: `Number(expectedProfit)/1e18 · 3000`. -/
def profitUsdOf (opp : Opportunity) : ℚ :=
  ((opp.expectedProfit : ℚ) / 10 ^ 18) * 3000

/-- USD gas cost assigned by the handler:
`Number(gasEstimate · 30 gwei)/1e18 · 3000`. -/
def gasCostUsdOf (opp : Opportunity) : ℚ :=
  (((opp.gasEstimate * 30 * 10 ^ 9 : Nat) : ℚ) / 10 ^ 18) * 3000

/-- Net USD profit assigned by the handler. -/
def netProfitUsdOf (opp : Opportunity) : ℚ :=
  profitUsdOf opp - gasCostUsdOf opp

/-- The opportunity with the handler's USD fields filled in. -/
def withUsd (opp : Opportunity) : Opportunity :=
  { opp with profitUsd := profitUsdOf opp, gasCostUsd := gasCostUsdOf opp,
             netProfitUsd := netProfitUsdOf opp }

/-- The `monitor.onOpportunity` handler's enqueue loop: for each delivered
opportunity, fill in the USD fields and push onto the queue whenever the net
USD profit reaches `minProfitUsd`.  The source performs no comparison with
opportunities already in the queue. -/
def onOpportunityEnqueue (cfg : BotConfig) (queue : List Opportunity)
    (opps : List Opportunity) : List Opportunity :=
  opps.foldl (fun q opp =>
    if cfg.minProfitUsd ≤ netProfitUsdOf opp then q ++ [withUsd opp] else q) queue

/-- Ordered pool sequence of an opportunity (the claim's equivalence key). -/
def poolSeq (o : Opportunity) : List Address :=
  o.path.map SwapStep.pool

/-! ### `FlashloanArbitrage` contract (`contracts/src/FlashloanArbitrage.sol`)

The circuit-breaker state of the contract, as a transition system.  A call
either reverts (`none`, leaving storage unchanged — the EVM rolls back the
whole transaction, including the lazy daily reset) or returns the updated
storage.  Token balances observed by the callback are inputs from the
environment (`balanceBefore`, `balanceAfter`); `repayAmount` is
`amounts[0] + feeAmounts[0]` and `minProfit` comes from the decoded params. -/

namespace FlashloanArbitrage

/-- The storage variables relevant to the daily-loss circuit breaker. -/
structure ContractState where
  paused : Bool
  maxLossPerTx : Nat
  dailyLossLimit : Nat
  dailyLoss : Nat
  lastResetTimestamp : Nat
deriving DecidableEq

/-- Constructor: unpaused, zero accumulated loss, reset clock at deployment
time. -/
def initState (maxLossPerTx dailyLossLimit deployTime : Nat) : ContractState :=
  { paused := false, maxLossPerTx := maxLossPerTx,
    dailyLossLimit := dailyLossLimit, dailyLoss := 0,
    lastResetTimestamp := deployTime }

/-- Model of `receiveFlashLoan` (vault callback): revert on insufficient profit; on a
net loss revert when it exceeds `maxLossPerTx`, otherwise accumulate it and
set `paused` once the daily limit is reached. -/
def receiveFlashLoan (s : ContractState)
    (balanceBefore balanceAfter repayAmount minProfit : Nat) :
    Option ContractState :=
  if balanceAfter < repayAmount + minProfit then none
  else if balanceAfter < balanceBefore then
    if s.maxLossPerTx < balanceBefore - balanceAfter then none
    else
      some { s with
        dailyLoss := s.dailyLoss + (balanceBefore - balanceAfter),
        paused :=
          if s.dailyLossLimit ≤ s.dailyLoss + (balanceBefore - balanceAfter) then
            true
          else s.paused }
  else some s

/-- Model of `executeArbitrage`: revert while paused; lazily reset the daily-loss
accumulator when a full day has passed since the last reset; then run the
flashloan, whose callback is `receiveFlashLoan` (a revert there rolls back
the reset as well). -/
def executeArbitrage (s : ContractState) (time : Nat)
    (balanceBefore balanceAfter repayAmount minProfit : Nat) :
    Option ContractState :=
  if s.paused then none
  else
    let s1 := if s.lastResetTimestamp + 86400 ≤ time then
        { s with dailyLoss := 0, lastResetTimestamp := time }
      else s
    receiveFlashLoan s1 balanceBefore balanceAfter repayAmount minProfit

/-- Model of `setCircuitBreaker` (owner): replace both loss limits; no pause check. -/
def setCircuitBreaker (s : ContractState) (maxLossPerTx dailyLossLimit : Nat) :
    ContractState :=
  { s with maxLossPerTx := maxLossPerTx, dailyLossLimit := dailyLossLimit }

/-- States reachable from deployment through `executeArbitrage` calls, direct
vault-initiated `receiveFlashLoan` callbacks, and owner `setCircuitBreaker`
calls — i.e. everything except an explicit owner `setPaused`, exactly the
exclusion the claim makes. -/
inductive Reachable : ContractState → Prop
  | init (maxLossPerTx dailyLossLimit deployTime : Nat) :
      Reachable (initState maxLossPerTx dailyLossLimit deployTime)
  | exec (s s' : ContractState) (time bb ba rp mp : Nat)
      (hs : Reachable s) (h : executeArbitrage s time bb ba rp mp = some s') :
      Reachable s'
  | vault (s s' : ContractState) (bb ba rp mp : Nat)
      (hs : Reachable s) (h : receiveFlashLoan s bb ba rp mp = some s') :
      Reachable s'
  | breaker (s : ContractState) (m l : Nat) (hs : Reachable s) :
      Reachable (setCircuitBreaker s m l)

/-- States reachable from a deployment with a positive daily-loss limit when
the owner additionally refrains from `setCircuitBreaker` (the amended
claim's hypotheses). -/
inductive ReachableSafe : ContractState → Prop
  | init (maxLossPerTx dailyLossLimit deployTime : Nat)
      (hl : 0 < dailyLossLimit) :
      ReachableSafe (initState maxLossPerTx dailyLossLimit deployTime)
  | exec (s s' : ContractState) (time bb ba rp mp : Nat)
      (hs : ReachableSafe s) (h : executeArbitrage s time bb ba rp mp = some s') :
      ReachableSafe s'
  | vault (s s' : ContractState) (bb ba rp mp : Nat)
      (hs : ReachableSafe s) (h : receiveFlashLoan s bb ba rp mp = some s') :
      ReachableSafe s'

end FlashloanArbitrage

/-! ### Concrete instances used by closed evaluations -/

/-- Chained path predicate: the edges compose head-to-tail from `a` to `b`. -/
def chainFrom {W : Type} : Address → List (Edge W) → Address → Prop
  | a, [], b => a = b
  | a, e :: es, b => e.«from» = a ∧ chainFrom e.«to» es b

/-- A graph whose edge map is keyed consistently: every edge stored under a
token has that token as its source.  Every graph assembled by `addEdge`
satisfies this. -/
def wellFormed {W : Type} (g : Graph W) : Prop :=
  ∀ p ∈ g.edges, ∀ e ∈ p.2, e.«from» = p.1

instance {W : Type} (g : Graph W) : Decidable (wellFormed g) := by
  unfold wellFormed; infer_instance

/-- Triangle-graph edge `1 → 2` (pool 11, slightly profit-generating). -/
def eAB : Edge Int :=
  { «from» := 1, «to» := 2, pool := 11, dex := "uni", dexType := DexType.UniswapV2,
    router := 5, weight := 1, reserve0 := 10 ^ 9, reserve1 := 10 ^ 9 + 500000,
    fee := 0 }

/-- Triangle-graph edge `2 → 3` (pool 12, balanced). -/
def eBC : Edge Int :=
  { «from» := 2, «to» := 3, pool := 12, dex := "uni", dexType := DexType.UniswapV2,
    router := 5, weight := 1, reserve0 := 10 ^ 9, reserve1 := 10 ^ 9, fee := 0 }

/-- Triangle-graph edge `3 → 1` (pool 13, balanced). -/
def eCA : Edge Int :=
  { «from» := 3, «to» := 1, pool := 13, dex := "uni", dexType := DexType.UniswapV2,
    router := 5, weight := 1, reserve0 := 10 ^ 9, reserve1 := 10 ^ 9, fee := 0 }

/-- A three-token graph holding one marginally profitable triangle; with all
weights positive the Bellman–Ford phase finds no negative cycle, so exactly
the direct-cycle enumeration contributes. -/
def exGraph : Graph Int :=
  { vertices := [1, 2, 3], edges := [(1, [eAB]), (2, [eBC]), (3, [eCA])] }

/-- Two-pool graph edge `1 → 2` through pool 21. -/
def pAB : Edge Int :=
  { «from» := 1, «to» := 2, pool := 21, dex := "uni", dexType := DexType.UniswapV2,
    router := 5, weight := 1, reserve0 := 10 ^ 9, reserve1 := 10 ^ 9, fee := 30 }

/-- Two-pool graph edge `2 → 1` through the distinct pool 22. -/
def pBA : Edge Int :=
  { «from» := 2, «to» := 1, pool := 22, dex := "uni", dexType := DexType.UniswapV2,
    router := 5, weight := 1, reserve0 := 10 ^ 9, reserve1 := 10 ^ 9, fee := 30 }

/-- A graph containing exactly one length-2 cycle through two distinct
pools. -/
def twoPoolGraph : Graph Int :=
  { vertices := [1, 2], edges := [(1, [pAB]), (2, [pBA])] }

/-- The `loadConfig` defaults of `bot/src/index.ts` (`MAX_SLIPPAGE_BPS`
defaults to 50). -/
def c3cfg : BotConfig :=
  { minProfitUsd := 10, maxGasPriceGwei := 100, maxSlippageBps := 50,
    simulateBeforeExecute := true, dryRun := false, maxConcurrentTrades := 1,
    cooldownMs := 1000, enabledChains := [42161, 8453], privateKey := "0xkey",
    flashbotsEnabled := false }

/-- An opportunity with expected profit 10000 wei. -/
def c3opp : Opportunity :=
  { id := "42161-1-abc", chain := 42161, path := [], inputToken := 1,
    inputAmount := 10 ^ 18, expectedOutput := 10 ^ 18 + 10000,
    expectedProfit := 10000, profitUsd := 0, gasEstimate := 390000,
    gasCostUsd := 0, netProfitUsd := 0, confidence := 1, timestamp := 1,
    expiresAt := 2001 }

/-- A dry-run configuration. -/
def c9cfg : BotConfig :=
  { c3cfg with dryRun := true }

/-- A concrete chain world for the dry-run witness. -/
def c9world : ChainWorld :=
  { nonce := 41, gasPriceWei := 12 * 10 ^ 9, simSuccess := true,
    receiptSuccess := true, receiptGasUsed := 310000, receiptBlock := 99,
    submitted := [] }

/-- Swap step `1 → 2` through pool 11 (for the queue-dedup instances). -/
def c7step1 : SwapStep :=
  { router := 5, tokenIn := 1, tokenOut := 2, amountIn := 10 ^ 18,
    expectedAmountOut := 10 ^ 18, pool := 11, dexType := DexType.UniswapV2,
    data := HexData.empty }

/-- Swap step `2 → 1` through pool 12. -/
def c7step2 : SwapStep :=
  { router := 5, tokenIn := 2, tokenOut := 1, amountIn := 10 ^ 18,
    expectedAmountOut := 10 ^ 18 + 10 ^ 17, pool := 12,
    dexType := DexType.UniswapV2, data := HexData.empty }

/-- An opportunity already pending in the queue, pool sequence [11, 12]. -/
def c7queued : Opportunity :=
  { id := "42161-100-aaa", chain := 42161, path := [c7step1, c7step2],
    inputToken := 1, inputAmount := 10 ^ 18,
    expectedOutput := 10 ^ 18 + 10 ^ 17, expectedProfit := 10 ^ 17,
    profitUsd := 300, gasEstimate := 310000, gasCostUsd := 1,
    netProfitUsd := 299, confidence := 1, timestamp := 100, expiresAt := 2100 }

/-- A freshly detected opportunity with the same ordered pool sequence
[11, 12], delivered 50 ms later. -/
def c7fresh : Opportunity :=
  { id := "42161-150-bbb", chain := 42161, path := [c7step1, c7step2],
    inputToken := 1, inputAmount := 10 ^ 18,
    expectedOutput := 10 ^ 18 + 10 ^ 17, expectedProfit := 10 ^ 17,
    profitUsd := 0, gasEstimate := 310000, gasCostUsd := 0, netProfitUsd := 0,
    confidence := 1, timestamp := 150, expiresAt := 2150 }

/-- The contract state reached from `initState 10 1 0` by one losing
`executeArbitrage` call (loss 1 hits the daily limit 1, tripping the
breaker). -/
def c8w : FlashloanArbitrage.ContractState :=
  { paused := true, maxLossPerTx := 10, dailyLossLimit := 1, dailyLoss := 1,
    lastResetTimestamp := 0 }

/-- A monitored pool subscription (tokens 1 and 2, pool 7, 30 bps). -/
def c2sub : PoolSubscription :=
  { pool := 7, dex := "uni", dexType := DexType.UniswapV2, router := 9,
    token0 := 1, token1 := 2, fee := 30 }

/-- Monitor state with an empty reserves table and one (empty) detector
graph for chain 42161. -/
def c2st0 : MonitorState :=
  { reserves := [], detectors := [(42161, { vertices := [], edges := [] })] }

/-- The event with sequence number (block 5, log 0). -/
def c2ev5 : SyncEvent :=
  { reserve0 := 100, reserve1 := 200, blockNumber := 5, logIndex := 0 }

/-- The stale event with the lower sequence number (block 4, log 0). -/
def c2ev4 : SyncEvent :=
  { reserve0 := 111, reserve1 := 222, blockNumber := 4, logIndex := 0 }

/-! ### General lemmas about the container model -/

theorem lookupA_cons {κ β : Type} [DecidableEq κ] (a : κ) (b : β)
    (rest : List (κ × β)) (k : κ) :
    lookupA ((a, b) :: rest) k = if a = k then some b else lookupA rest k := by
  by_cases h : a = k <;> simp [lookupA, List.find?, h]

theorem lookupA_setA_self {κ β : Type} [DecidableEq κ] (m : List (κ × β))
    (k : κ) (v : β) : lookupA (setA m k v) k = some v := by
  induction m with
  | nil => simp [setA, lookupA_cons]
  | cons p rest ih =>
      obtain ⟨a, b⟩ := p
      by_cases h : a = k
      · simp [setA, h, lookupA_cons]
      · simp [setA, h, lookupA_cons, ih]

theorem lookupA_setA_ne {κ β : Type} [DecidableEq κ] (m : List (κ × β))
    {k k' : κ} (v : β) (hne : k' ≠ k) :
    lookupA (setA m k v) k' = lookupA m k' := by
  induction m with
  | nil => simp [setA, lookupA_cons, lookupA, List.find?, Ne.symm hne]
  | cons p rest ih =>
      obtain ⟨a, b⟩ := p
      by_cases h : a = k
      · subst h
        simp [setA, lookupA_cons, Ne.symm hne]
      · simp [setA, h, lookupA_cons, ih]

theorem mem_insertByProfit {o x : Opportunity} :
    ∀ {l : List Opportunity}, o ∈ insertByProfit x l → o = x ∨ o ∈ l := by
  intro l
  induction l with
  | nil =>
      intro h
      simp only [insertByProfit] at h
      exact Or.inl (List.mem_singleton.mp h)
  | cons p ps ih =>
      intro hmem
      by_cases h : p.expectedProfit < x.expectedProfit
      · simp only [insertByProfit, if_pos h] at hmem
        rcases List.mem_cons.mp hmem with h1 | h1
        · exact Or.inl h1
        · exact Or.inr h1
      · simp only [insertByProfit, if_neg h] at hmem
        rcases List.mem_cons.mp hmem with h1 | h1
        · exact Or.inr (by simp [h1])
        · rcases ih h1 with h2 | h2
          · exact Or.inl h2
          · exact Or.inr (List.mem_cons.mpr (Or.inr h2))

theorem mem_sortByProfitDesc_aux {o : Opportunity} :
    ∀ (l acc : List Opportunity),
      o ∈ l.foldl (fun acc o => insertByProfit o acc) acc → o ∈ acc ∨ o ∈ l := by
  intro l
  induction l with
  | nil => intro acc h; exact Or.inl (by simpa using h)
  | cons x xs ih =>
      intro acc h
      rcases ih (insertByProfit x acc) (by simpa using h) with h1 | h1
      · rcases mem_insertByProfit h1 with h2 | h2
        · exact Or.inr (by simp [h2])
        · exact Or.inl h2
      · exact Or.inr (List.mem_cons.mpr (Or.inr h1))

theorem mem_sortByProfitDesc {o : Opportunity} {l : List Opportunity}
    (h : o ∈ sortByProfitDesc l) : o ∈ l := by
  rcases mem_sortByProfitDesc_aux l [] h with h1 | h1
  · simp at h1
  · exact h1

/-- Preservation of a predicate along a list fold that only ever extends its
accumulator in ways respecting the predicate. -/
theorem foldl_pres {α β : Type} {Q : α → Prop} (f : List α → β → List α)
    (hf : ∀ acc x, (∀ o ∈ acc, Q o) → ∀ o ∈ f acc x, Q o) :
    ∀ (l : List β) (init : List α), (∀ o ∈ init, Q o) → ∀ o ∈ l.foldl f init, Q o := by
  intro l
  induction l with
  | nil => intro init hinit o ho; exact hinit o (by simpa using ho)
  | cons x xs ih =>
      intro init hinit o ho
      exact ih (f init x) (hf init x hinit) o (by simpa using ho)

/-! ### The quoting loop -/

theorem runCycle_snd {W : Type} :
    ∀ (c : List (Edge W)) (amt : Nat), (runCycle c amt).2 = quoteCycle c amt := by
  intro c
  induction c with
  | nil => intro amt; rfl
  | cons e rest ih =>
      intro amt
      simp only [runCycle, quoteCycle, List.foldl_cons]
      simpa [quoteStep, quoteCycle] using ih _

theorem buildOpportunity_spec {W : Type} {chainId now : Nat} {rand : String}
    {cycle : List (Edge W)} {amt : Nat} {o : Opportunity}
    (h : buildOpportunity chainId now rand cycle amt = some o) :
    o.inputAmount = amt ∧ o.expectedOutput = quoteCycle cycle amt ∧
      o.expectedProfit = (o.expectedOutput : Int) - (o.inputAmount : Int) := by
  cases cycle with
  | nil => simp [buildOpportunity] at h
  | cons e rest =>
      simp only [buildOpportunity, Option.some.injEq] at h
      subst h
      refine ⟨rfl, ?_, rfl⟩
      simpa using (runCycle_snd (e :: rest) amt)

theorem negCycleStep_pres {W : Type} (pred : List (Address × Option (Edge W)))
    (chainId now : Nat) (rand : String) (sourceToken : Address) (inputAmount : Nat) :
    ∀ (acc : List Opportunity) (v : Address),
      (∀ o ∈ acc, ∃ c : List (Edge W),
        buildOpportunity chainId now rand c inputAmount = some o ∧
          0 < o.expectedProfit) →
      ∀ o ∈ negCycleStep pred chainId now rand sourceToken inputAmount acc v,
        ∃ c : List (Edge W),
          buildOpportunity chainId now rand c inputAmount = some o ∧
            0 < o.expectedProfit := by
  intro acc v hacc o ho
  unfold negCycleStep at ho
  split at ho
  · exact hacc o ho
  · split at ho
    · split at ho
      · rename_i heq
        split at ho
        · rcases List.mem_append.mp ho with h1 | h1
          · exact hacc o h1
          · rename_i hpos
            have : o = _ := List.mem_singleton.mp h1
            subst this
            exact ⟨_, heq, hpos⟩
        · exact hacc o ho
      · exact hacc o ho
    · exact hacc o ho

theorem directCycleStep_pres {W : Type} (chainId now : Nat) (rand : String)
    (inputAmount : Nat) :
    ∀ (acc : List Opportunity) (cycle : List (Edge W)),
      (∀ o ∈ acc, ∃ c : List (Edge W),
        buildOpportunity chainId now rand c inputAmount = some o ∧
          0 < o.expectedProfit) →
      ∀ o ∈ directCycleStep chainId now rand inputAmount acc cycle,
        ∃ c : List (Edge W),
          buildOpportunity chainId now rand c inputAmount = some o ∧
            0 < o.expectedProfit := by
  intro acc cycle hacc o ho
  unfold directCycleStep at ho
  split at ho
  · rename_i heq
    split at ho
    · rename_i hpos
      split at ho
      · exact hacc o ho
      · rcases List.mem_append.mp ho with h1 | h1
        · exact hacc o h1
        · have : o = _ := List.mem_singleton.mp h1
          subst this
          exact ⟨_, heq, hpos⟩
    · exact hacc o ho
  · exact hacc o ho

/-- Every opportunity returned by `findArbitrageOpportunities` was produced
by `buildOpportunity` on some cycle and survived the positive-profit
filter. -/
theorem findArb_mem {W : Type} [LinearOrder W] [Add W] [Zero W]
    {g : Graph W} {chainId now : Nat} {rand : String} {sourceToken : Address}
    {inputAmount : Nat} {o : Opportunity}
    (ho : o ∈ findArbitrageOpportunities g chainId now rand sourceToken inputAmount) :
    ∃ c : List (Edge W),
      buildOpportunity chainId now rand c inputAmount = some o ∧
        0 < o.expectedProfit := by
  simp only [findArbitrageOpportunities] at ho
  split at ho
  · simp at ho
  · have h1 := mem_sortByProfitDesc ho
    exact foldl_pres _ (directCycleStep_pres chainId now rand inputAmount) _ _
      (foldl_pres _ (negCycleStep_pres _ chainId now rand sourceToken inputAmount)
        _ [] (by simp)) o h1

/-- Claim C1 (amended):  Every opportunity returned by
`findArbitrageOpportunities` carries the requested input amount; its
`expectedOutput` is exactly the sequential application of the exact
constant-product output formula (`calculateRate`) to each edge of the
producing cycle, starting from `inputAmount` and using each edge's stored
reference reserves; its `expectedProfit` is `expectedOutput − inputAmount`
and is strictly positive.  (The original claim's stronger bound
`expectedOutput ≥ inputAmount + minProfit(minProfitBps)` is refuted by
`C1_counterexample_minProfit`: the detector's `minProfitBps` field is never
read after construction, and the only filter is `expectedProfit > 0n`.) -/
theorem C1_detector_quote_consistency {W : Type} [LinearOrder W] [Add W] [Zero W]
    (g : Graph W) (chainId now : Nat) (rand : String) (sourceToken : Address)
    (inputAmount : Nat) :
    List.Forall (fun o =>
        (∃ cycle : List (Edge W),
            buildOpportunity chainId now rand cycle inputAmount = some o ∧
              o.expectedOutput = quoteCycle cycle inputAmount) ∧
          o.inputAmount = inputAmount ∧
          o.expectedProfit = (o.expectedOutput : Int) - (o.inputAmount : Int) ∧
          0 < o.expectedProfit)
      (findArbitrageOpportunities g chainId now rand sourceToken inputAmount) := by
  rw [List.forall_iff_forall_mem]
  intro o ho
  obtain ⟨c, hc, hpos⟩ := findArb_mem ho
  obtain ⟨hin, hout, hprofit⟩ := buildOpportunity_spec hc
  exact ⟨⟨c, hc, hout⟩, hin, hprofit, hpos⟩

/-- Claim C1 (counterexample):  On a concrete three-pool triangle the detector
(with its default `minProfitBps = 10`) returns an opportunity whose
`expectedOutput` (10002) exceeds the input (10000) by only 2, strictly less
than the configured minimum profit `10000·10/10000 = 10`, refuting
`expectedOutput ≥ inputAmount + minProfit`. -/
theorem C1_counterexample_minProfit :
    (findArbitrageOpportunities exGraph 42161 777 "r" 1 10000).map
        Opportunity.expectedOutput = [10002] ∧
      (findArbitrageOpportunities exGraph 42161 777 "r" 1 10000).map
        Opportunity.inputAmount = [10000] ∧
      ¬ (10000 + 10000 * 10 / 10000 ≤ 10002) :=
  ⟨by decide, by decide, by decide⟩

/-- Closed instance of `C1_detector_quote_consistency` on the triangle
graph. -/
theorem C1_detector_quote_consistency_witness :
    List.Forall (fun o =>
        (∃ cycle : List (Edge Int),
            buildOpportunity 42161 777 "r" cycle 10000 = some o ∧
              o.expectedOutput = quoteCycle cycle 10000) ∧
          o.inputAmount = 10000 ∧
          o.expectedProfit = (o.expectedOutput : Int) - (o.inputAmount : Int) ∧
          0 < o.expectedProfit)
      (findArbitrageOpportunities exGraph 42161 777 "r" 1 10000) :=
  C1_detector_quote_consistency exGraph 42161 777 "r" 1 10000

/-- Claim C4:  The detector's v2 constant-product quote is exactly the spec's
formula `amountOut = (δ·(10000−fee_bps)·reserveOut) / (reserveIn·10000 +
δ·(10000−fee_bps))` with integer division: the source's `calculateRate`
computes this expression literally. -/
theorem C4_calculateRate_formula (reserveIn reserveOut amountIn feeBps : Nat)
    (_hin : 0 < amountIn) (_hr0 : 0 < reserveIn) (_hr1 : 0 < reserveOut)
    (_hfee : feeBps ≤ 10000) :
    calculateRateOut reserveIn reserveOut amountIn feeBps =
      specV2AmountOut amountIn feeBps reserveIn reserveOut := rfl

/-- Closed instance of `C4_calculateRate_formula`. -/
theorem C4_calculateRate_formula_witness :
    0 < 1000 ∧ 0 < 500 ∧ 0 < 800 ∧ 30 ≤ 10000 ∧
      calculateRateOut 500 800 1000 30 = specV2AmountOut 1000 30 500 800 :=
  ⟨by decide, by decide, by decide, by decide,
    C4_calculateRate_formula 500 800 1000 30 (by decide) (by decide) (by decide)
      (by decide)⟩

/-- Claim C10:  For `amountIn > 0` and `feeBps < 10000` the divisor of
`calculateRate` is non-zero (even with `reserveIn = 0`) and the quoted
output never exceeds `reserveOut`. -/
theorem C10_calculateRate_safety (reserveIn reserveOut amountIn feeBps : Nat)
    (hin : 0 < amountIn) (hfee : feeBps < 10000) :
    reserveIn * 10000 + amountIn * (10000 - feeBps) ≠ 0 ∧
      calculateRateOut reserveIn reserveOut amountIn feeBps ≤ reserveOut := by
  have hpos : 0 < amountIn * (10000 - feeBps) := Nat.mul_pos hin (by omega)
  constructor
  · omega
  · unfold calculateRateOut
    calc amountIn * (10000 - feeBps) * reserveOut /
          (reserveIn * 10000 + amountIn * (10000 - feeBps))
        ≤ (reserveIn * 10000 + amountIn * (10000 - feeBps)) * reserveOut /
          (reserveIn * 10000 + amountIn * (10000 - feeBps)) :=
          Nat.div_le_div_right (Nat.mul_le_mul_right _ (by omega))
      _ = reserveOut := Nat.mul_div_cancel_left _ (by omega)

/-- Closed instance of `C10_calculateRate_safety` at `reserveIn = 0`. -/
theorem C10_calculateRate_safety_witness :
    0 < 5 ∧ 30 < 10000 ∧
      (0 * 10000 + 5 * (10000 - 30) ≠ 0 ∧ calculateRateOut 0 100 5 30 ≤ 100) :=
  ⟨by decide, by decide, C10_calculateRate_safety 0 100 5 30 (by decide) (by decide)⟩

/-- Claim C3 (code bug):  `buildArbitrageParams` computes `minProfit =
expectedProfit · (100 − maxSlippageBps) / 100`, treating the basis-point
configuration value as a percentage: at `expectedProfit = 10000` and the
default `maxSlippageBps = 50` the encoded `minProfit` is 5000 (a 50%
haircut), while the documented formula `expected_profit·(1 −
slippage_bps/10000)` gives 9950 (a 0.5% haircut). -/
theorem C3_slippage_divergence :
    (buildArbitrageParams c3cfg c3opp).minProfit = 5000 ∧
      specSlippageMinProfit c3opp.expectedProfit c3cfg.maxSlippageBps = 9950 ∧
      (buildArbitrageParams c3cfg c3opp).minProfit ≠
        specSlippageMinProfit c3opp.expectedProfit c3cfg.maxSlippageBps :=
  ⟨by decide, by decide, by decide⟩

/-- Claim C9:  With `dryRun` enabled, `execute` returns the synthesized success
result — the all-zero sentinel hash, profit equal to the opportunity's
`expectedProfit`, gas equal to its estimate — and the chain world is returned
unchanged: nothing is signed, the nonce is not consumed, no transaction is
appended, and balances are untouched. -/
theorem C9_dryRun_frame (cfg : BotConfig) (opp : Opportunity) (w : ChainWorld)
    (now : Nat) (hdry : cfg.dryRun = true) :
    execute cfg opp w now =
      ({ success := true, txHash := some sentinelHash,
         profit := some opp.expectedProfit, gasUsed := some opp.gasEstimate,
         error := none, blockNumber := none, timestamp := now }, w) := by
  unfold execute
  rw [hdry]
  simp

/-- Closed instance of `C9_dryRun_frame`. -/
theorem C9_dryRun_frame_witness :
    c9cfg.dryRun = true ∧
      execute c9cfg c3opp c9world 123 =
        ({ success := true, txHash := some sentinelHash,
           profit := some c3opp.expectedProfit, gasUsed := some c3opp.gasEstimate,
           error := none, blockNumber := none, timestamp := 123 }, c9world) :=
  ⟨rfl, C9_dryRun_frame c9cfg c3opp c9world 123 rfl⟩

/-! ### Direct-cycle enumeration (C5) -/

theorem chainFrom_append {W : Type} {e : Edge W} :
    ∀ {p : List (Edge W)} {a b : Address},
      chainFrom a p b → e.«from» = b → chainFrom a (p ++ [e]) e.«to» := by
  intro p
  induction p with
  | nil =>
      intro a b hab he
      subst hab
      exact ⟨he, rfl⟩
  | cons x xs ih =>
      intro a b hab he
      exact ⟨hab.1, ih hab.2 he⟩

theorem wellFormed_edgesFor {W : Type} {g : Graph W} (hwf : wellFormed g)
    {a : Address} {e : Edge W} (he : e ∈ edgesFor g a) : e.«from» = a := by
  unfold edgesFor lookupA at he
  cases hf : g.edges.find? (fun p => decide (p.1 = a)) with
  | none => simp [hf] at he
  | some p =>
      have hkey : p.1 = a := by
        have h2 := List.find?_some hf
        exact of_decide_eq_true h2
      have hmem : p ∈ g.edges := List.mem_of_find?_eq_some hf
      rw [hf] at he
      simp at he
      exact hkey ▸ hwf p hmem e he

/-- Soundness of the bounded DFS: every emitted candidate is an edge chain
from the source back to the source, of length between 3 and `maxHops + 1`. -/
theorem directCycleDFS_sound {W : Type} (g : Graph W) (source : Address)
    (maxHops : Nat) (hwf : wellFormed g) :
    ∀ (fuel : Nat) (current : Address) (path : List (Edge W))
      (visited : List (Address × Address × Address)),
      chainFrom source path current → path.length ≤ maxHops →
      ∀ c ∈ directCycleDFS g source maxHops fuel current path visited,
        chainFrom source c source ∧ 3 ≤ c.length ∧ c.length ≤ maxHops + 1 := by
  intro fuel
  induction fuel with
  | zero =>
      intro current path visited _ _ c hc
      simp [directCycleDFS] at hc
  | succ fuel ih =>
      intro current path visited hchain hlen c hc
      rw [directCycleDFS, if_neg (by omega)] at hc
      obtain ⟨e, he, hce⟩ := List.mem_flatMap.mp hc
      have hefrom : e.«from» = current := wellFormed_edgesFor hwf he
      by_cases hclose : e.«to» = source ∧ path.length ≥ 2
      · rw [if_pos hclose] at hce
        have hceq : c = path ++ [e] := List.mem_singleton.mp hce
        subst hceq
        refine ⟨?_, ?_, ?_⟩
        · have := chainFrom_append hchain hefrom
          rwa [hclose.1] at this
        · simp
          omega
        · simp
          omega
      · rw [if_neg hclose] at hce
        by_cases hrec : (e.«from», e.«to», e.pool) ∉ visited ∧ path.length < maxHops
        · rw [if_pos hrec] at hce
          exact ih e.«to» (path ++ [e])
            ((e.«from», e.«to», e.pool) :: visited)
            (chainFrom_append hchain hefrom) (by simp; omega) c hce
        · rw [if_neg hrec] at hce
          simp at hce

/-- Claim C5 (amended):  Every candidate produced by the bounded enumeration
`findDirectCycles` is a directed edge chain starting and ending at the source
token, of length at least 3 and at most `maxHops + 1` (so with the default
`K = 3`, lengths 3 and 4).  In particular no length-2 cycle is ever emitted —
the closing test requires at least two edges already on the path — refuting
the original claim's "length 2 up to K"; see
`C5_counterexample_two_hop`. -/
theorem C5_direct_cycles_sound {W : Type} (g : Graph W) (source : Address)
    (maxHops : Nat) (hwf : wellFormed g) :
    List.Forall (fun c =>
        chainFrom source c source ∧ 3 ≤ c.length ∧ c.length ≤ maxHops + 1)
      (findDirectCycles g source maxHops) := by
  rw [List.forall_iff_forall_mem]
  intro c hc
  exact directCycleDFS_sound g source maxHops hwf (maxHops + 1) source [] []
    rfl (Nat.zero_le _) c hc

/-- Claim C5 (counterexample):  A graph holding exactly one simple length-2
cycle through two distinct pools (`1 →(pool 21) 2 →(pool 22) 1`): the claim
says this cycle is a candidate, but `findDirectCycles` returns no candidate
at all. -/
theorem C5_counterexample_two_hop :
    findDirectCycles twoPoolGraph 1 3 = [] ∧
      pAB ∈ edgesFor twoPoolGraph 1 ∧ pBA ∈ edgesFor twoPoolGraph 2 ∧
      pAB.«from» = 1 ∧ pAB.«to» = 2 ∧ pBA.«from» = 2 ∧ pBA.«to» = 1 ∧
      pAB.pool ≠ pBA.pool :=
  ⟨by decide, by decide, by decide, rfl, rfl, rfl, rfl, by decide⟩

/-- Closed instance of `C5_direct_cycles_sound` on the triangle graph (whose
enumeration is non-empty). -/
theorem C5_direct_cycles_sound_witness :
    wellFormed exGraph ∧
      List.Forall (fun c =>
          chainFrom 1 c 1 ∧ 3 ≤ c.length ∧ c.length ≤ 3 + 1)
        (findDirectCycles exGraph 1 3) :=
  ⟨by decide, C5_direct_cycles_sound exGraph 1 3 (by decide)⟩

/-! ### Opportunity queue (C7) -/

/-- Claim C7 (amended):  The enqueue handler appends every opportunity whose
computed net USD profit reaches `minProfitUsd`, unconditionally on the
current queue content: no equivalence check against pending opportunities
(by pool sequence or otherwise) is performed.  The original claim's
rejection of duplicates is refuted by
`C7_counterexample_duplicate_enqueued`. -/
theorem C7_enqueue_no_dedup (cfg : BotConfig) (queue : List Opportunity)
    (opp : Opportunity) (hmin : cfg.minProfitUsd ≤ netProfitUsdOf opp) :
    onOpportunityEnqueue cfg queue [opp] = queue ++ [withUsd opp] := by
  simp [onOpportunityEnqueue, hmin]

/-- Claim C7 (counterexample):  With an equivalent opportunity (identical
ordered pool sequence, 50 ms older — well inside any recency window) already
pending, the handler still appends the newcomer: the queue grows to two
entries with the same pool sequence instead of rejecting the enqueue. -/
theorem C7_counterexample_duplicate_enqueued :
    poolSeq c7queued = poolSeq (withUsd c7fresh) ∧
      onOpportunityEnqueue c3cfg [c7queued] [c7fresh] =
        [c7queued, withUsd c7fresh] ∧
      onOpportunityEnqueue c3cfg [c7queued] [c7fresh] ≠ [c7queued] := by
  have hmin : c3cfg.minProfitUsd ≤ netProfitUsdOf c7fresh := by
    norm_num [netProfitUsdOf, profitUsdOf, gasCostUsdOf, c7fresh, c3cfg]
  have heq : onOpportunityEnqueue c3cfg [c7queued] [c7fresh] =
      [c7queued, withUsd c7fresh] := by
    simp [onOpportunityEnqueue, hmin]
  refine ⟨by decide, heq, ?_⟩
  rw [heq]
  intro h
  simp at h

/-- Closed instance of `C7_enqueue_no_dedup` with a duplicate already in the
queue. -/
theorem C7_enqueue_no_dedup_witness :
    c3cfg.minProfitUsd ≤ netProfitUsdOf c7fresh ∧
      onOpportunityEnqueue c3cfg [c7queued] [c7fresh] =
        [c7queued] ++ [withUsd c7fresh] :=
  ⟨by norm_num [netProfitUsdOf, profitUsdOf, gasCostUsdOf, c7fresh, c3cfg],
    C7_enqueue_no_dedup c3cfg [c7queued] c7fresh
      (by norm_num [netProfitUsdOf, profitUsdOf, gasCostUsdOf, c7fresh, c3cfg])⟩

/-! ### State mirror sequencing (C2) -/

/-- After `updateReserves`, the stored snapshot for the pool is exactly the
delivered payload, whatever was stored before. -/
theorem getReserves_updateReserves (st : MonitorState) (chainId : Nat)
    (sub : PoolSubscription) (r0 r1 t : Nat) :
    getReserves (updateReserves st chainId sub r0 r1 t) chainId sub.pool =
      some { pool := sub.pool, dex := sub.dex, token0 := sub.token0,
             token1 := sub.token1, reserve0 := r0, reserve1 := r1,
             fee := sub.fee, timestamp := t } := by
  unfold updateReserves getReserves
  cases hd : lookupA st.detectors chainId <;>
    simp [hd, lookupA_setA_self]

/-- Claim C2 (amended):  The `Sync` handler keeps no sequence number and
performs no staleness check: every delivered event overwrites the stored
snapshot with its own payload (last write wins), so after delivering any two
events for the same pool the mirror holds the second event's reserves —
identical to the state produced by the second event alone — and every
delivery, stale or not, triggers a detector run.  The original claim's
discard of out-of-order events is refuted by
`C2_counterexample_stale_applied`. -/
theorem C2_updates_applied_unconditionally (st : MonitorState) (chainId : Nat)
    (sub : PoolSubscription) (e1 e2 : SyncEvent) (t1 t2 : Nat) :
    getReserves ((handleSyncLog ((handleSyncLog st chainId sub e1 t1).1)
        chainId sub e2 t2).1) chainId sub.pool =
      some { pool := sub.pool, dex := sub.dex, token0 := sub.token0,
             token1 := sub.token1, reserve0 := e2.reserve0,
             reserve1 := e2.reserve1, fee := sub.fee, timestamp := t2 } ∧
    getReserves ((handleSyncLog ((handleSyncLog st chainId sub e1 t1).1)
        chainId sub e2 t2).1) chainId sub.pool =
      getReserves ((handleSyncLog st chainId sub e2 t2).1) chainId sub.pool ∧
    (handleSyncLog ((handleSyncLog st chainId sub e1 t1).1)
        chainId sub e2 t2).2 = true := by
  refine ⟨?_, ?_, rfl⟩
  · exact getReserves_updateReserves _ chainId sub e2.reserve0 e2.reserve1 t2
  · simp only [handleSyncLog]
    rw [getReserves_updateReserves, getReserves_updateReserves]

/-- Claim C2 (counterexample):  Deliver the event of block 5, then the stale
event of block 4, for the same pool.  The final snapshot holds the block-4
payload (111, 222) — not the block-5 state (100, 200) the claim requires —
and the stale delivery still triggers a detector run. -/
theorem C2_counterexample_stale_applied :
    getReserves ((handleSyncLog ((handleSyncLog c2st0 42161 c2sub c2ev5 1000).1)
        42161 c2sub c2ev4 1001).1) 42161 7 =
      some { pool := 7, dex := "uni", token0 := 1, token1 := 2, reserve0 := 111,
             reserve1 := 222, fee := 30, timestamp := 1001 } ∧
    getReserves ((handleSyncLog c2st0 42161 c2sub c2ev5 1000).1) 42161 7 =
      some { pool := 7, dex := "uni", token0 := 1, token1 := 2, reserve0 := 100,
             reserve1 := 200, fee := 30, timestamp := 1000 } ∧
    (handleSyncLog ((handleSyncLog c2st0 42161 c2sub c2ev5 1000).1)
        42161 c2sub c2ev4 1001).2 = true ∧
    c2ev4.blockNumber < c2ev5.blockNumber :=
  ⟨by decide, by decide, rfl, by decide⟩

/-! ### Round-trip weights (C6) -/

/-- Integer core of the round-trip bound: quoting `δ` through a pool and
quoting `δ` back through the same pool multiply to at most `δ²`.  (The two
directions divide by denominators at least `r0·10000` resp. `r1·10000`, so
the product is at most `δ²·γ²/10⁸ ≤ δ²` for `γ = 10000 − fee ≤ 10000`.) -/
theorem calculateRateOut_round_trip_le (r0 r1 delta fee : Nat)
    (h0 : 0 < r0) (h1 : 0 < r1) :
    calculateRateOut r0 r1 delta fee * calculateRateOut r1 r0 delta fee ≤
      delta * delta := by
  have hγle : 10000 - fee ≤ 10000 := by omega
  have o1le : calculateRateOut r0 r1 delta fee ≤
      delta * (10000 - fee) * r1 / (r0 * 10000) := by
    unfold calculateRateOut
    exact Nat.div_le_div_left (Nat.le_add_right _ _) (by positivity)
  have o2le : calculateRateOut r1 r0 delta fee ≤
      delta * (10000 - fee) * r0 / (r1 * 10000) := by
    unfold calculateRateOut
    exact Nat.div_le_div_left (Nat.le_add_right _ _) (by positivity)
  have hnum : delta * (10000 - fee) * r1 * (delta * (10000 - fee) * r0) =
      delta * delta * ((10000 - fee) * (10000 - fee)) * (r0 * r1) := by ring
  have hden : r0 * 10000 * (r1 * 10000) = 10000 * 10000 * (r0 * r1) := by ring
  calc calculateRateOut r0 r1 delta fee * calculateRateOut r1 r0 delta fee
      ≤ delta * (10000 - fee) * r1 / (r0 * 10000) *
          (delta * (10000 - fee) * r0 / (r1 * 10000)) := Nat.mul_le_mul o1le o2le
    _ ≤ delta * (10000 - fee) * r1 * (delta * (10000 - fee) * r0) /
          (r0 * 10000 * (r1 * 10000)) := Nat.div_mul_div_le _ _ _ _
    _ = delta * delta * ((10000 - fee) * (10000 - fee)) * (r0 * r1) /
          (10000 * 10000 * (r0 * r1)) := by rw [hnum, hden]
    _ = delta * delta * ((10000 - fee) * (10000 - fee)) / (10000 * 10000) := by
          rw [Nat.mul_div_mul_right _ _ (by positivity)]
    _ ≤ delta * delta * (10000 * 10000) / (10000 * 10000) :=
          Nat.div_le_div_right
            (Nat.mul_le_mul_left _ (Nat.mul_le_mul hγle hγle))
    _ = delta * delta := Nat.mul_div_cancel _ (by positivity)

/-- Real/EReal level: the two stored weights of a pool sum to a non-negative
extended real for positive reserves.  Zero quotes give weight `⊤`; otherwise
the product of the two rates is at most 1, so the logs sum to at most 0. -/
theorem weight_sum_nonneg (r0 r1 delta fee : Nat) (h0 : 0 < r0) (h1 : 0 < r1)
    (hd : 0 < delta) :
    0 ≤ calculateWeight (calculateRateRate r0 r1 delta fee) +
        calculateWeight (calculateRateRate r1 r0 delta fee) := by
  unfold calculateWeight
  by_cases hc1 : calculateRateRate r0 r1 delta fee ≤ 0
  · rw [if_pos hc1]
    by_cases hc2 : calculateRateRate r1 r0 delta fee ≤ 0
    · rw [if_pos hc2]
      exact le_top.trans_eq rfl
    · rw [if_neg hc2, EReal.top_add_coe]
      exact le_top
  · rw [if_neg hc1]
    by_cases hc2 : calculateRateRate r1 r0 delta fee ≤ 0
    · rw [if_pos hc2, EReal.coe_add_top]
      exact le_top
    · rw [if_neg hc2]
      push_neg at hc1 hc2
      have hdr : (0 : ℝ) < (delta : ℝ) := by exact_mod_cast hd
      have hmul : calculateRateRate r0 r1 delta fee *
          calculateRateRate r1 r0 delta fee ≤ 1 := by
        unfold calculateRateRate
        rw [div_mul_div_comm, div_le_one (by positivity)]
        have hb := calculateRateOut_round_trip_le r0 r1 delta fee h0 h1
        calc (calculateRateOut r0 r1 delta fee : ℝ) *
              (calculateRateOut r1 r0 delta fee : ℝ)
            = ((calculateRateOut r0 r1 delta fee *
                calculateRateOut r1 r0 delta fee : Nat) : ℝ) := by push_cast; ring
          _ ≤ ((delta * delta : Nat) : ℝ) := by exact_mod_cast hb
          _ = (delta : ℝ) * (delta : ℝ) := by push_cast; ring
      have hlog : Real.log (calculateRateRate r0 r1 delta fee) +
          Real.log (calculateRateRate r1 r0 delta fee) ≤ 0 := by
        rw [← Real.log_mul (ne_of_gt hc1) (ne_of_gt hc2)]
        exact Real.log_nonpos (by positivity) hmul
      rw [← EReal.coe_add]
      exact EReal.coe_nonneg.mpr (by linarith)

/-- After `addEdge`, the inserted edge is present in its source's edge
list. -/
theorem mem_edgesFor_addEdge_self {W : Type} (g : Graph W) (e : Edge W) :
    e ∈ edgesFor (addEdge g e) e.«from» := by
  unfold addEdge edgesFor
  simp [lookupA_setA_self]

/-- Lemma: `addEdge` leaves the edge lists of other source tokens unchanged. -/
theorem edgesFor_addEdge_ne {W : Type} (g : Graph W) (e : Edge W) {a : Address}
    (h : a ≠ e.«from») : edgesFor (addEdge g e) a = edgesFor g a := by
  unfold addEdge edgesFor
  rw [lookupA_setA_ne _ _ h]

/-- Claim C6:  For every pool snapshot with positive reserves applied by
`updateReserves` on a chain with a detector, both derived edges exist in the
updated graph — the forward edge under `token0`, the reverse edge under
`token1`, each carrying `−ln` of its quoted rate as weight — and the two
weights sum to a non-negative (extended-real) value: the round-trip cost is
never negative.  (A positive fee makes the inequality strict, but
non-negativity already holds for any fee.) -/
theorem C6_round_trip_weights (st : MonitorState) (chainId : Nat)
    (sub : PoolSubscription) (r0 r1 t : Nat) (g : Graph EReal)
    (hg : lookupA st.detectors chainId = some g)
    (h0 : 0 < r0) (h1 : 0 < r1) (_hfee0 : 0 < sub.fee) (_hfee : sub.fee ≤ 10000)
    (htok : sub.token0 ≠ sub.token1) :
    ∃ g' : Graph EReal,
      lookupA (updateReserves st chainId sub r0 r1 t).detectors chainId = some g' ∧
        fwdEdge sub r0 r1 ∈ edgesFor g' sub.token0 ∧
        revEdge sub r0 r1 ∈ edgesFor g' sub.token1 ∧
        0 ≤ (fwdEdge sub r0 r1).weight + (revEdge sub r0 r1).weight := by
  refine ⟨addEdge (addEdge g (fwdEdge sub r0 r1)) (revEdge sub r0 r1),
    ?_, ?_, ?_, ?_⟩
  · simp only [updateReserves, hg]
    exact lookupA_setA_self _ _ _
  · have hne : sub.token0 ≠ (revEdge sub r0 r1).«from» := htok
    rw [edgesFor_addEdge_ne _ _ hne]
    exact mem_edgesFor_addEdge_self g (fwdEdge sub r0 r1)
  · exact mem_edgesFor_addEdge_self (addEdge g (fwdEdge sub r0 r1))
      (revEdge sub r0 r1)
  · exact weight_sum_nonneg r0 r1 referenceInput sub.fee h0 h1 (by norm_num [referenceInput])

/-- Closed instance of `C6_round_trip_weights` on the monitored pool of
`c2st0`. -/
theorem C6_round_trip_weights_witness :
    lookupA c2st0.detectors 42161 =
        some ({ vertices := [], edges := [] } : Graph EReal) ∧
      (0 : Nat) < 10 ^ 6 ∧ (0 : Nat) < 2 * 10 ^ 6 ∧ 0 < c2sub.fee ∧
      c2sub.fee ≤ 10000 ∧ c2sub.token0 ≠ c2sub.token1 ∧
      ∃ g' : Graph EReal,
        lookupA (updateReserves c2st0 42161 c2sub (10 ^ 6) (2 * 10 ^ 6) 50).detectors
            42161 = some g' ∧
          fwdEdge c2sub (10 ^ 6) (2 * 10 ^ 6) ∈ edgesFor g' c2sub.token0 ∧
          revEdge c2sub (10 ^ 6) (2 * 10 ^ 6) ∈ edgesFor g' c2sub.token1 ∧
          0 ≤ (fwdEdge c2sub (10 ^ 6) (2 * 10 ^ 6)).weight +
              (revEdge c2sub (10 ^ 6) (2 * 10 ^ 6)).weight :=
  ⟨rfl, by decide, by decide, by decide, by decide, by decide,
    C6_round_trip_weights c2st0 42161 c2sub (10 ^ 6) (2 * 10 ^ 6) 50
      { vertices := [], edges := [] } rfl (by decide) (by decide) (by decide)
      (by decide) (by decide)⟩

/-! ### Daily-loss circuit breaker (C8) -/

/-- The daily-loss accumulator after a successful `receiveFlashLoan`: grown
by the realized loss, unchanged otherwise. -/
theorem receiveFlashLoan_dailyLoss {s s' : FlashloanArbitrage.ContractState}
    {bb ba rp mp : Nat}
    (h : FlashloanArbitrage.receiveFlashLoan s bb ba rp mp = some s') :
    s'.dailyLoss = if ba < bb then s.dailyLoss + (bb - ba) else s.dailyLoss := by
  unfold FlashloanArbitrage.receiveFlashLoan at h
  split at h
  · simp at h
  · split at h
    · rename_i hba
      split at h
      · simp at h
      · injection h with h'
        subst h'
        simp [hba]
    · rename_i hba
      injection h with h'
      subst h'
      simp [hba]

/-- A successful `receiveFlashLoan` preserves the pause invariant: positive
daily limit, and pause whenever the accumulator reaches it. -/
theorem receiveFlashLoan_inv {s s' : FlashloanArbitrage.ContractState}
    {bb ba rp mp : Nat}
    (h : FlashloanArbitrage.receiveFlashLoan s bb ba rp mp = some s')
    (hlim : 0 < s.dailyLossLimit)
    (hinv : s.dailyLossLimit ≤ s.dailyLoss → s.paused = true) :
    0 < s'.dailyLossLimit ∧
      (s'.dailyLossLimit ≤ s'.dailyLoss → s'.paused = true) := by
  unfold FlashloanArbitrage.receiveFlashLoan at h
  split at h
  · simp at h
  · split at h
    · split at h
      · simp at h
      · injection h with h'
        subst h'
        refine ⟨hlim, fun hle => ?_⟩
        simp only at hle ⊢
        rw [if_pos hle]
    · injection h with h'
      subst h'
      exact ⟨hlim, hinv⟩

/-- The strengthened induction behind the amended C8: on every safely
reachable state the daily limit stays positive and reaching it implies the
pause flag. -/
theorem reachableSafe_inv {s : FlashloanArbitrage.ContractState}
    (hs : FlashloanArbitrage.ReachableSafe s) :
    0 < s.dailyLossLimit ∧
      (s.dailyLossLimit ≤ s.dailyLoss → s.paused = true) := by
  induction hs with
  | init m l t hl =>
      refine ⟨hl, fun h => ?_⟩
      simp only [FlashloanArbitrage.initState] at h hl ⊢
      omega
  | exec s s' t bb ba rp mp hs h ih =>
      unfold FlashloanArbitrage.executeArbitrage at h
      split at h
      · simp at h
      · rename_i hp
        split at h
        · rename_i hroll
          refine receiveFlashLoan_inv h ih.1 (fun hle => ?_)
          simp only at hle
          omega
        · exact receiveFlashLoan_inv h ih.1 ih.2
  | vault s s' bb ba rp mp hs h ih =>
      exact receiveFlashLoan_inv h ih.1 ih.2

/-- Claim C8 (amended):  For a deployment with a positive `dailyLossLimit`, in
every state reachable through `executeArbitrage` calls and vault
`receiveFlashLoan` callbacks (no owner `setPaused`, and — beyond the
original claim's exclusion — no owner `setCircuitBreaker`, which can lower
the limit under the accumulated loss without pausing): (1) `dailyLoss ≥
dailyLossLimit` implies the pause flag is set; (2) while paused every
`executeArbitrage` call reverts; (3) within a 24-hour window the accumulator
never decreases, and an `executeArbitrage` at or past the rollover resets it
to zero before accounting that same call's loss; (4) a direct vault callback
never decreases it.  The claim as stated is refuted by
`C8_counterexample_zero_limit`. -/
theorem C8_daily_loss_invariant :
    (∀ s : FlashloanArbitrage.ContractState, FlashloanArbitrage.ReachableSafe s →
        s.dailyLossLimit ≤ s.dailyLoss → s.paused = true) ∧
      (∀ (s : FlashloanArbitrage.ContractState) (time bb ba rp mp : Nat),
        s.paused = true →
          FlashloanArbitrage.executeArbitrage s time bb ba rp mp = none) ∧
      (∀ (s : FlashloanArbitrage.ContractState) (time bb ba rp mp : Nat)
        (s' : FlashloanArbitrage.ContractState),
        FlashloanArbitrage.executeArbitrage s time bb ba rp mp = some s' →
          (time < s.lastResetTimestamp + 86400 → s.dailyLoss ≤ s'.dailyLoss) ∧
            (s.lastResetTimestamp + 86400 ≤ time → s'.dailyLoss = bb - ba)) ∧
      (∀ (s : FlashloanArbitrage.ContractState) (bb ba rp mp : Nat)
        (s' : FlashloanArbitrage.ContractState),
        FlashloanArbitrage.receiveFlashLoan s bb ba rp mp = some s' →
          s.dailyLoss ≤ s'.dailyLoss) := by
  refine ⟨?_, ?_, ?_, ?_⟩
  · intro s hs
    exact (reachableSafe_inv hs).2
  · intro s time bb ba rp mp hp
    simp [FlashloanArbitrage.executeArbitrage, hp]
  · intro s time bb ba rp mp s' h
    unfold FlashloanArbitrage.executeArbitrage at h
    split at h
    · simp at h
    · constructor
      · intro ht
        rw [if_neg (by omega)] at h
        have := receiveFlashLoan_dailyLoss h
        split at this <;> omega
      · intro ht
        rw [if_pos ht] at h
        have := receiveFlashLoan_dailyLoss h
        simp only at this
        split at this <;> omega
  · intro s bb ba rp mp s' h
    have := receiveFlashLoan_dailyLoss h
    split at this <;> omega

/-- Claim C8 (counterexample):  The deployed state with `dailyLossLimit = 0`
is reachable without any `setPaused` call, has `dailyLoss ≥ dailyLossLimit`
(0 ≥ 0), yet is not paused.  (Likewise, an owner `setCircuitBreaker`
lowering the limit below the accumulated loss leaves the contract
unpaused.) -/
theorem C8_counterexample_zero_limit :
    FlashloanArbitrage.Reachable (FlashloanArbitrage.initState 5 0 100) ∧
      (FlashloanArbitrage.initState 5 0 100).dailyLossLimit ≤
        (FlashloanArbitrage.initState 5 0 100).dailyLoss ∧
      (FlashloanArbitrage.initState 5 0 100).paused = false :=
  ⟨FlashloanArbitrage.Reachable.init 5 0 100, by decide, rfl⟩

/-- Closed instance of `C8_daily_loss_invariant`: one losing call from
`initState 10 1 0` trips the breaker, after which `executeArbitrage`
reverts. -/
theorem C8_daily_loss_invariant_witness :
    FlashloanArbitrage.executeArbitrage (FlashloanArbitrage.initState 10 1 0)
        0 5 4 0 0 = some c8w ∧
      c8w.dailyLossLimit ≤ c8w.dailyLoss ∧
      c8w.paused = true ∧
      FlashloanArbitrage.executeArbitrage c8w 7 9 9 0 0 = none :=
  ⟨rfl, by decide,
    C8_daily_loss_invariant.1 c8w
      (FlashloanArbitrage.ReachableSafe.exec _ _ 0 5 4 0 0
        (FlashloanArbitrage.ReachableSafe.init 10 1 0 (by decide)) rfl)
      (by decide),
    C8_daily_loss_invariant.2.1 c8w 7 9 9 0 0 rfl⟩

end FlashArb
